import Mathlib

/-!
# Verification of the priority-driven tree-exploration scheduler spec

This file shallowly embeds the parts of the repository that the spec's
claims are about and proves or refutes each claim.

Two kinds of definitions appear:

* Embeddings of the visualizer (`MultiverseVisualizer`, frontend JS):
  nodes are untyped JSON objects, modelled as association lists of
  string keys to JSON values.  The functions `getEvolutionPath`,
  `getNodeDepth` and `handleNodeUpdate` are translated line by line
  from the source.

* Models of the backend scheduler (Node Store, Frontier, Budget and
  Moderation guard, Priority Engine, Exploration Worker).  The Python
  backend is not part of the available sources (only its documentation
  and the frontend consumer are), so those components are modelled
  from the spec, each marked `Modelled from the spec:` in its doc
  comment.  Concurrency is treated by the spec's own atomicity
  contract: every concurrent execution of atomic operations is some
  sequential interleaving, so runs are arbitrary operation sequences.
-/

namespace Multiverse

/-! ## JSON value model for the visualizer

The visualizer works on parsed JSON: node records arrive from
`GET /graph` and from WebSocket messages.  A JSON scalar value is
`null`, a string, a number, a boolean, or the two-element position
array `xy`. -/

/-- A JSON value as the visualizer sees it.  The `vec` constructor
models the two-element `[x, y]` position array. -/
inductive JVal where
  | null
  | str (s : String)
  | num (q : ℚ)
  | boolean (b : Bool)
  | vec (x y : ℚ)
deriving DecidableEq

/-- A JSON object: an association list of key/value pairs
(keys of a parsed JSON object are unique, tracked where needed). -/
abbrev Obj := List (String × JVal)

/-- Property access `o.k` on a JSON object: the value at the first
occurrence of key `k`, or `none` (JS `undefined`) when absent. -/
def jget : Obj → String → Option JVal
  | [], _ => none
  | (k, v) :: rest, key => if k = key then some v else jget rest key

/-- JS truthiness of a JSON value (`null`, `""`, `0` and `false` are
falsy). -/
def jtruthy : JVal → Bool
  | .null => false
  | .str s => decide (s ≠ "")
  | .num q => decide (q ≠ 0)
  | .boolean b => b
  | .vec _ _ => true

/-- Truthiness of an optional value; `none` is JS `undefined`, falsy. -/
def jtruthyO : Option JVal → Bool
  | none => false
  | some v => jtruthy v

/-- `this.nodes.find(n => n.id === v)`: first node whose `id` field
equals `v`. -/
def findById : List Obj → Option JVal → Option Obj
  | [], _ => none
  | n :: ns, v => if jget n "id" = v then some n else findById ns v

/-! ## Parent-link walkers (visualizer source, `getEvolutionPath` and
`getNodeDepth`)

`getEvolutionPath` (source lines 537-558):
```js
const path = [node]; let current = node; const visited = new Set();
while (current && current.parent && !visited.has(current.id)) {
  visited.add(current.id);
  const parent = this.nodes.find(n => n.id === current.parent);
  if (parent) { path.unshift(parent); current = parent; } else break;
  if (path.length > 20) break;  // safety check
}
return path;
```
-/

/-- Loop body of `getEvolutionPath`: `cur` is the JS `current`, `path`
accumulates with `unshift`, `vis` is the `visited` set of `id` values. -/
def evoWalk (nodes : List Obj) (cur : Obj) (path : List Obj)
    (vis : List (Option JVal)) : List Obj :=
  if jtruthyO (jget cur "parent") = true ∧ jget cur "id" ∉ vis then
    match findById nodes (jget cur "parent") with
    | none => path
    | some par =>
      if 20 < (par :: path).length then par :: path
      else evoWalk nodes par (par :: path) (jget cur "id" :: vis)
  else path
termination_by 21 - path.length
decreasing_by simp only [List.length_cons] at *; omega

/-- `getEvolutionPath(node)` of the visualizer: walk `parent` links,
building the root-first path, with the `path.length > 20` safety break. -/
def getEvolutionPath (nodes : List Obj) (node : Obj) : List Obj :=
  evoWalk nodes node [node] []

/-- Loop body of `getNodeDepth` (source lines 244-257):
```js
let depth = 0; let current = node; const visited = new Set();
while (current && current.parent && !visited.has(current.id)) {
  visited.add(current.id);
  current = this.nodes.find(n => n.id === current.parent);
  depth++;
  if (depth > 20) break; // Safety break
}
return depth;
```
Here `cur` may be `none` (JS `undefined` after a failed `find`). -/
def depthWalk (nodes : List Obj) (cur : Option Obj)
    (vis : List (Option JVal)) (depth : ℕ) : ℕ :=
  match cur with
  | none => depth
  | some c =>
    if jtruthyO (jget c "parent") = true ∧ jget c "id" ∉ vis then
      if 20 < depth + 1 then depth + 1
      else depthWalk nodes (findById nodes (jget c "parent"))
        (jget c "id" :: vis) (depth + 1)
    else depth
termination_by 21 - depth
decreasing_by omega

/-- `getNodeDepth(node)` of the visualizer. -/
def getNodeDepth (nodes : List Obj) (node : Obj) : ℕ :=
  depthWalk nodes (some node) [] 0

/-! ## WebSocket node event handling (`handleNodeUpdate`, source lines
210-227)

```js
const existingIndex = this.nodes.findIndex(n => n.id === update.id);
if (existingIndex >= 0) {
  this.nodes[existingIndex] = { ...this.nodes[existingIndex], ...update };
} else {
  this.nodes.push(update);
}
```
-/

/-- `nodes.findIndex(n => n.id === v)`, with `-1` modelled as `none`. -/
def findIdxById : List Obj → Option JVal → Option ℕ
  | [], _ => none
  | n :: ns, v =>
    if jget n "id" = v then some 0 else (findIdxById ns v).map (· + 1)

/-- In-place element assignment `nodes[i] = y` (out-of-range writes do
not occur on the event path; modelled as a no-op). -/
def setAt : List Obj → ℕ → Obj → List Obj
  | [], _, _ => []
  | _ :: xs, 0, y => y :: xs
  | x :: xs, i + 1, y => x :: setAt xs i y

/-- Indexing `nodes[i]` (the event path only reads indices returned by
`findIndex`, which are in range). -/
def getAt : List Obj → ℕ → Obj
  | [], _ => []
  | x :: _, 0 => x
  | _ :: xs, i + 1 => getAt xs i

/-- The JS object spread `{ ...e, ...u }`: keys of `e` in order, values
overridden by `u` where `u` has the key, followed by the keys of `u`
absent from `e`, in `u`'s order. -/
def spreadMerge (e u : Obj) : Obj :=
  (e.map fun kv =>
    match jget u kv.1 with
    | some v => (kv.1, v)
    | none => kv) ++
  u.filter fun kv => (jget e kv.1).isNone

/-- `handleNodeUpdate(update)`: merge into the existing node with the
same `id`, or append the update as a new node. -/
def handleNodeUpdate (nodes : List Obj) (u : Obj) : List Obj :=
  match findIdxById nodes (jget u "id") with
  | some i => setAt nodes i (spreadMerge (getAt nodes i) u)
  | none => nodes ++ [u]

/-! ## Spec-modelled backend: Frontier (§4.2)

The Frontier of the backend is not among the available sources; it is
modelled from the spec.  All Frontier operations are atomic with
respect to concurrent callers, so a concurrent run is modelled as an
arbitrary sequence of operations on the shared state. -/

/-- A pending expansion opportunity (§3 FrontierEntry): `nodeId`,
`priority` (higher = more urgent), `insertedAt`. -/
structure FrontierEntry where
  nodeId : String
  priority : ℚ
  insertedAt : ℕ
deriving DecidableEq

/-- Modelled from the spec: the selection order of `popBatch` (§4.2) —
highest priority first, ties broken by earliest `insertedAt`. -/
def entryLE (a b : FrontierEntry) : Prop :=
  b.priority < a.priority ∨ (b.priority = a.priority ∧ a.insertedAt ≤ b.insertedAt)

instance : DecidableRel entryLE := fun a b => by
  unfold entryLE; infer_instance

/-- Modelled from the spec: the Frontier state — the priority-ordered
pending set keyed by node id, together with the set of node ids whose
entry has already been popped (an entry "exists for a node iff that
node has not yet been selected for expansion", §3). -/
structure Frontier where
  pending : List FrontierEntry
  popped : List String
deriving DecidableEq

/-- The Frontier at the start of a run: nothing pending, nothing
popped. -/
def emptyFrontier : Frontier := ⟨[], []⟩

/-- Modelled from the spec: `push(nodeId, priority)` (§4.2) — inserts,
or does not overwrite if an entry for the id already exists (first
write wins); together with the §3 invariant that an entry, once
popped, is never re-inserted for the same node. -/
def Frontier.push (f : Frontier) (nid : String) (pri : ℚ) (t : ℕ) : Frontier :=
  if nid ∈ f.pending.map FrontierEntry.nodeId ∨ nid ∈ f.popped then f
  else ⟨⟨nid, pri, t⟩ :: f.pending, f.popped⟩

/-- Modelled from the spec: `popBatch(maxCount)` (§4.2) — atomically
removes up to `maxCount` highest-priority entries (FIFO among equal
priority) and returns them; the removed ids are recorded as popped. -/
def Frontier.popBatch (f : Frontier) (maxCount : ℕ) :
    List FrontierEntry × Frontier :=
  let sorted := List.insertionSort entryLE f.pending
  (sorted.take maxCount,
   ⟨sorted.drop maxCount,
    f.popped ++ (sorted.take maxCount).map FrontierEntry.nodeId⟩)

/-- Modelled from the spec: `boost(nodeIds, delta)` (§4.2) — atomically
increases the priority of existing entries, a no-op for ids with no
pending entry. -/
def Frontier.boost (f : Frontier) (nids : List String) (d : ℚ) : Frontier :=
  ⟨f.pending.map fun e =>
      if e.nodeId ∈ nids then { e with priority := e.priority + d } else e,
   f.popped⟩

/-- One atomic Frontier operation of a concurrent run. -/
inductive FOp where
  | push (nid : String) (pri : ℚ) (t : ℕ)
  | pop (maxCount : ℕ)
  | boost (nids : List String) (d : ℚ)

/-- Apply one atomic operation; the second component is the batch this
operation returned to its caller (empty for `push`/`boost`). -/
def applyFOp (f : Frontier) : FOp → Frontier × List FrontierEntry
  | .push nid pri t => (f.push nid pri t, [])
  | .pop k => ((f.popBatch k).2, (f.popBatch k).1)
  | .boost nids d => (f.boost nids d, [])

/-- Run a sequence of atomic Frontier operations (an interleaving of
any number of concurrent callers), collecting every entry any
`popBatch` call returned, in order. -/
def runFOps : Frontier → List FOp → Frontier × List FrontierEntry
  | f, [] => (f, [])
  | f, op :: ops =>
    ((runFOps (applyFOp f op).1 ops).1,
     (applyFOp f op).2 ++ (runFOps (applyFOp f op).1 ops).2)

/-- Well-formedness of a Frontier: no node id occurs twice across the
pending entries and the popped set. -/
def Frontier.WF (f : Frontier) : Prop :=
  (f.pending.map FrontierEntry.nodeId ++ f.popped).Nodup

/-! ## Spec-modelled backend: Budget guard and Exploration Worker
(§4.5, §4.6) -/

/-- Modelled from the spec: the process-wide BudgetLedger (§3) —
cumulative spend and configured limit. -/
structure BudgetLedger where
  spend : ℚ
  limit : ℚ

/-- Admission verdict of the budget guard (§4.5). -/
inductive Admission where
  | allowed
  | exhausted
deriving DecidableEq

/-- Modelled from the spec: `checkAdmission(ledger)` (§4.5) — compares
cumulative spend to the configured limit (spend ≥ limit is
`Exhausted`, §8 "Budget gate ordering"). -/
def checkAdmission (l : BudgetLedger) : Admission :=
  if l.limit ≤ l.spend then .exhausted else .allowed

/-- Outcome of one Worker batch cycle: whether `popBatch` was called,
the batch it returned, and the resulting Frontier. -/
structure CycleOutcome where
  popCalled : Bool
  batch : List FrontierEntry
  frontier : Frontier

/-- Modelled from the spec: one batch cycle of the Exploration Worker
(§4.6 state machine, `CheckingBudget → Popping`): the budget check
strictly precedes the pop; on `Exhausted` the Worker backs off, leaving
the Frontier untouched and calling no `popBatch`. -/
def workerCycle (l : BudgetLedger) (f : Frontier) (batchSize : ℕ) :
    CycleOutcome :=
  match checkAdmission l with
  | .exhausted => ⟨false, [], f⟩
  | .allowed => ⟨true, (f.popBatch batchSize).1, (f.popBatch batchSize).2⟩

/-! ## Spec-modelled backend: Priority Engine (§4.4) -/

/-- The live run-configuration weights of the priority formula (§3
RunConfiguration). -/
structure PriorityWeights where
  lambdaTrend : ℚ
  lambdaSim : ℚ
  lambdaDepth : ℚ

/-- Modelled from the spec: `computePriority` (§4.4):
`priority = score + λ_trend·(score − parentScore) − λ_sim·topKSimilarity
− λ_depth·depth`. -/
def computePriority (w : PriorityWeights)
    (score parentScore topKSimilarity : ℚ) (depth : ℕ) : ℚ :=
  score + w.lambdaTrend * (score - parentScore)
    - w.lambdaSim * topKSimilarity - w.lambdaDepth * depth

/-! ## Spec-modelled backend: Node Store (§4.1, §3 lifecycle) -/

/-- Modelled from the spec: a stored Node, restricted to the fields the
tree invariant concerns (§3): id, parent reference, depth. -/
structure SNode where
  id : String
  parentId : Option String
  depth : ℕ
deriving DecidableEq

/-- A node-creating operation (§3 lifecycle): an external seed creating
a depth-0 root, or the Worker creating a child of an existing parent. -/
inductive StoreOp where
  | seed (id : String)
  | child (id : String) (parentId : String)

/-- Modelled from the spec: `create` of the Node Store (§4.1 and §3):
fails with `DuplicateId` if the id is already present; a child's parent
must already exist at insertion time (parent-must-preexist) and the
child's depth is `parent.depth + 1`; a failed create commits nothing. -/
def applyStoreOp (store : List SNode) : StoreOp → List SNode
  | .seed i =>
    if store.any (fun n => n.id == i) then store
    else ⟨i, none, 0⟩ :: store
  | .child i p =>
    if store.any (fun n => n.id == i) then store
    else
      match store.find? (fun n => n.id == p) with
      | none => store
      | some par => ⟨i, some p, par.depth + 1⟩ :: store

/-- The store reached from empty by a sequence of creating operations. -/
def runStore (ops : List StoreOp) : List SNode :=
  ops.foldl applyStoreOp []

/-- The tree invariant (§3, §8): every node with a parent reference has
an existing parent one depth level up, and depth 0 exactly for parentless
roots. -/
def storeInv (store : List SNode) : Prop :=
  ∀ n ∈ store,
    (∀ p, n.parentId = some p →
      ∃ m ∈ store, m.id = p ∧ n.depth = m.depth + 1)
    ∧ (n.depth = 0 ↔ n.parentId = none)

/-! ## Spec-modelled backend: Moderation guard and candidate pipeline
(§4.5, §4.6 step 3) -/

/-- Verdict of the moderation capability (§4.5). -/
inductive Verdict where
  | allowed
  | blocked
deriving DecidableEq

/-- Modelled from the spec: the generation capabilities the candidate
pipeline consumes (§6), each reporting its cost alongside its result. -/
structure Caps where
  moderate : String → Verdict
  reply : String → String × ℚ
  criticize : String → ℚ × ℚ

/-- What processing one candidate produced (§4.6 step 3): number of
persona (`reply`) and critic (`criticize`) calls issued, the cost
attributed to the BudgetLedger, and the committed child (reply text and
trajectory score), if any. -/
structure CandOutcome where
  replyCalls : ℕ
  criticCalls : ℕ
  cost : ℚ
  child : Option (String × ℚ)
deriving DecidableEq

/-- Modelled from the spec: the per-candidate pipeline (§4.6 step 3):
moderation check → persona reply → critic score → commit; a `Blocked`
verdict short-circuits the branch — no persona or critic call is
issued, no cost is attributed, and no child is created. -/
def processCandidate (caps : Caps) (ctx cand : String) : CandOutcome :=
  match caps.moderate cand with
  | .blocked => ⟨0, 0, 0, none⟩
  | .allowed =>
    ⟨1, 1, (caps.reply cand).2
        + (caps.criticize (ctx ++ cand ++ (caps.reply cand).1)).2,
     some ((caps.reply cand).1,
       (caps.criticize (ctx ++ cand ++ (caps.reply cand).1)).1)⟩

/-- Modelled from the spec: the candidates of a batch entry are
processed independently (§4.6: each candidate's failure or block is
isolated and never affects sibling candidates). -/
def processCandidates (caps : Caps) (ctx : String) (cands : List String) :
    List CandOutcome :=
  cands.map (processCandidate caps ctx)

/-- A concrete capability set used as witness input: blocks exactly the
candidate `"bad"`, otherwise replies and scores at unit cost. -/
def capsDemo : Caps :=
  ⟨fun s => if s = "bad" then .blocked else .allowed,
   fun s => (s ++ "!", 1),
   fun _ => (1, 1)⟩

/-! ## Spec-modelled backend: graph snapshot query (§6) -/

/-- Modelled from the spec: a backend node as the graph snapshot query
reads it (§6 "Graph query", §3): id, 2-D `position` projection, score,
parent reference. -/
structure GNode where
  id : String
  parentId : Option String
  score : Option ℚ
  posX : ℚ
  posY : ℚ
deriving DecidableEq

/-- Modelled from the spec: the record the graph snapshot query
(`GET /graph`) emits for one node — "returns all nodes (id, position,
score, parentId)".  The backend endpoint itself is not among the
sources, so the field names follow the spec's words. -/
def graphRecord (n : GNode) : Obj :=
  [("id", .str n.id),
   ("position", .vec n.posX n.posY),
   ("score", match n.score with | some q => .num q | none => .null),
   ("parentId", match n.parentId with | some p => .str p | none => .null)]

/-- Modelled from the spec: the graph snapshot query over the whole
store. -/
def graphQuery (store : List GNode) : List Obj :=
  store.map graphRecord

/-! ## Concrete inputs used by witnesses and counterexamples -/

/-- Root of a four-node chain (no `parent` field, as sent for roots). -/
def vRoot : Obj := [("id", .str "r"), ("prompt", .str "Hello")]

/-- First child of the chain. -/
def vA : Obj := [("id", .str "a"), ("parent", .str "r")]

/-- Second child of the chain. -/
def vB : Obj := [("id", .str "b"), ("parent", .str "a")]

/-- Third child of the chain. -/
def vC : Obj := [("id", .str "c"), ("parent", .str "b")]

/-- The chain root→a→b→c as a node list. -/
def vChain : List Obj := [vRoot, vA, vB, vC]

/-- A linear chain of 25 nodes n00→n01→…→n24 (each node's parent link
points one step back); deeper than the walkers' safety cap. -/
def chain25 : List Obj := [
  [("id", .str "n00")],
  [("id", .str "n01"), ("parent", .str "n00")],
  [("id", .str "n02"), ("parent", .str "n01")],
  [("id", .str "n03"), ("parent", .str "n02")],
  [("id", .str "n04"), ("parent", .str "n03")],
  [("id", .str "n05"), ("parent", .str "n04")],
  [("id", .str "n06"), ("parent", .str "n05")],
  [("id", .str "n07"), ("parent", .str "n06")],
  [("id", .str "n08"), ("parent", .str "n07")],
  [("id", .str "n09"), ("parent", .str "n08")],
  [("id", .str "n10"), ("parent", .str "n09")],
  [("id", .str "n11"), ("parent", .str "n10")],
  [("id", .str "n12"), ("parent", .str "n11")],
  [("id", .str "n13"), ("parent", .str "n12")],
  [("id", .str "n14"), ("parent", .str "n13")],
  [("id", .str "n15"), ("parent", .str "n14")],
  [("id", .str "n16"), ("parent", .str "n15")],
  [("id", .str "n17"), ("parent", .str "n16")],
  [("id", .str "n18"), ("parent", .str "n17")],
  [("id", .str "n19"), ("parent", .str "n18")],
  [("id", .str "n20"), ("parent", .str "n19")],
  [("id", .str "n21"), ("parent", .str "n20")],
  [("id", .str "n22"), ("parent", .str "n21")],
  [("id", .str "n23"), ("parent", .str "n22")],
  [("id", .str "n24"), ("parent", .str "n23")]
]

/-- The deepest node of `chain25`. -/
def chain25Last : Obj := [("id", .str "n24"), ("parent", .str "n23")]

/-- A two-node parent cycle A→B→A (possible only in a corrupted store;
the spec claims the reconstructor fails fast on such input). -/
def cycA : Obj := [("id", .str "A"), ("parent", .str "B")]

/-- Companion of `cycA` in the two-node cycle. -/
def cycB : Obj := [("id", .str "B"), ("parent", .str "A")]

/-- A concrete backend root node for the graph-query claims. -/
def gRoot : GNode := ⟨"r", none, none, 0, 0⟩

/-- A concrete backend child node (parent `gRoot`) for the graph-query
claims. -/
def gChild : GNode := ⟨"c", some "r", some 1, 1, 1⟩

/-- A concrete node-updated event for the root `vRoot`: fills in a
score and a reply. -/
def wUpd : Obj := [("id", .str "r"), ("score", .num 1), ("reply", .str "ok")]

/-! ## Bounds and stepping lemmas for the walkers -/

/-- The path accumulated by `evoWalk` never grows beyond 21 entries:
each loop iteration adds one node and the `path.length > 20` safety
check stops the loop. -/
theorem evoWalk_length_le (nodes : List Obj) (cur : Obj) (path : List Obj)
    (vis : List (Option JVal)) (h : path.length ≤ 20) :
    (evoWalk nodes cur path vis).length ≤ 21 := by
  revert h
  induction cur, path, vis using evoWalk.induct nodes with
  | case1 cur path vis hcond hfind =>
    intro h
    rw [evoWalk, if_pos hcond, hfind]
    show path.length ≤ 21
    omega
  | case2 cur path vis hcond par hfind hlen =>
    intro h
    rw [evoWalk, if_pos hcond, hfind]
    simp only [hlen, if_pos]
    simp only [List.length_cons]
    omega
  | case3 cur path vis hcond par hfind hlen ih =>
    intro h
    rw [evoWalk, if_pos hcond, hfind]
    simp only [hlen, if_neg]
    exact ih (by simp only [List.length_cons] at hlen ⊢; omega)
  | case4 cur path vis hcond =>
    intro h
    rw [evoWalk, if_neg hcond]
    omega

/-- The counter of `depthWalk` never exceeds 21: the `depth > 20`
safety check stops the loop. -/
theorem depthWalk_le (nodes : List Obj) (cur : Option Obj)
    (vis : List (Option JVal)) (depth : ℕ) (h : depth ≤ 20) :
    depthWalk nodes cur vis depth ≤ 21 := by
  revert h
  induction cur, vis, depth using depthWalk.induct nodes with
  | case1 vis depth =>
    intro h
    rw [depthWalk]
    omega
  | case2 vis depth c hcond hlen =>
    intro h
    rw [depthWalk, if_pos hcond, if_pos hlen]
    omega
  | case3 vis depth c hcond hlen ih =>
    intro h
    rw [depthWalk, if_pos hcond, if_neg hlen]
    exact ih (by omega)
  | case4 vis depth c hcond =>
    intro h
    rw [depthWalk, if_neg hcond]
    omega

/-- One loop iteration of `evoWalk` when the parent is truthy, unseen
and found in the node list, and the safety bound is not yet hit. -/
theorem evoWalk_step (nodes : List Obj) (cur par : Obj) (path : List Obj)
    (vis : List (Option JVal))
    (htru : jtruthyO (jget cur "parent") = true)
    (hvis : jget cur "id" ∉ vis)
    (hfind : findById nodes (jget cur "parent") = some par)
    (hlen : path.length ≤ 19) :
    evoWalk nodes cur path vis =
      evoWalk nodes par (par :: path) (jget cur "id" :: vis) := by
  rw [evoWalk, if_pos ⟨htru, hvis⟩, hfind]
  simp only [List.length_cons]
  rw [if_neg (by omega)]

/-- `evoWalk` stops at a node whose `parent` field is falsy. -/
theorem evoWalk_stop (nodes : List Obj) (cur : Obj) (path : List Obj)
    (vis : List (Option JVal))
    (htru : jtruthyO (jget cur "parent") = false) :
    evoWalk nodes cur path vis = path := by
  rw [evoWalk, if_neg]
  intro hc
  rw [htru] at hc
  exact Bool.false_ne_true hc.1

/-! ## Claim C3: conversation reconstruction on a four-node chain -/

/-- **C3**: for every node `c` whose parent links form a chain
root→a→b→c with all four nodes present in the node list (present and
retrievable by id lookup, ids pairwise distinct, parent references
truthy as node ids are), `getEvolutionPath` starting at `c` returns
exactly `[root, a, b, c]` in root-first order. -/
theorem claim_c3_reconstruction (nodes : List Obj) (root a b c : Obj)
    (hcT : jtruthyO (jget c "parent") = true)
    (hcF : findById nodes (jget c "parent") = some b)
    (hbT : jtruthyO (jget b "parent") = true)
    (hbF : findById nodes (jget b "parent") = some a)
    (haT : jtruthyO (jget a "parent") = true)
    (haF : findById nodes (jget a "parent") = some root)
    (hrT : jtruthyO (jget root "parent") = false)
    (hbc : jget b "id" ≠ jget c "id")
    (hab : jget a "id" ≠ jget b "id")
    (hac : jget a "id" ≠ jget c "id") :
    getEvolutionPath nodes c = [root, a, b, c] := by
  unfold getEvolutionPath
  rw [evoWalk_step nodes c b [c] [] hcT (by simp) hcF (by simp)]
  rw [evoWalk_step nodes b a [b, c] [jget c "id"] hbT (by simp [hbc])
    hbF (by simp)]
  rw [evoWalk_step nodes a root [a, b, c] [jget b "id", jget c "id"] haT
    (by simp [hab, hac]) haF (by simp)]
  exact evoWalk_stop _ _ _ _ hrT

/-- Witness for C3 on the concrete chain `vChain`. -/
theorem claim_c3_reconstruction_witness :
    getEvolutionPath vChain vC = [vRoot, vA, vB, vC] :=
  claim_c3_reconstruction vChain vRoot vA vB vC (by decide) (by decide)
    (by decide) (by decide) (by decide) (by decide) (by decide)
    (by decide) (by decide) (by decide)

/-! ## Claims C9 and C4: termination bound and silent truncation -/

/-- **C9**: for every finite node array — including arrays whose parent
links form a cycle or reference a missing node — `getEvolutionPath` and
`getNodeDepth` terminate (they are total functions of this embedding,
whose recursion is bounded by the source's own safety break), and the
returned path length, respectively the returned depth, never exceeds
21. -/
theorem claim_c9_walkers_bounded (nodes : List Obj) (node : Obj) :
    (getEvolutionPath nodes node).length ≤ 21
    ∧ getNodeDepth nodes node ≤ 21 :=
  ⟨evoWalk_length_le nodes node [node] [] (by simp),
   depthWalk_le nodes (some node) [] 0 (by omega)⟩

/-- **C4 counterexample**: the claim says a too-deep traversal fails
fast with a `CycleOrTooDeep` error rather than returning a result and
does not silently truncate.  On the concrete 25-node chain the source's
`getEvolutionPath` returns an ordinary path holding only 21 of the 25
chain nodes — a silently truncated result; no error value exists in the
code. -/
theorem claim_c4_counterexample :
    (getEvolutionPath chain25 chain25Last).length = 21
    ∧ chain25.length = 25 := by
  constructor
  · simp [getEvolutionPath, chain25, chain25Last, evoWalk, findById, jget,
      jtruthyO, jtruthy]
  · rfl

/-- **C4 amended**: the parent-link walkers bound traversal by a
hard-coded safety cap of 20 iterations (not a configurable default of
about 64); on exceeding it they silently return the truncated result —
the last 21 chain nodes, respectively depth 21 — and on a parent cycle
they return a short path (with the start node repeated) instead of any
`CycleOrTooDeep` error. -/
theorem claim_c4_silent_truncation :
    getEvolutionPath chain25 chain25Last = chain25.drop 4
    ∧ getNodeDepth chain25 chain25Last = 21
    ∧ getEvolutionPath [cycA, cycB] cycA = [cycA, cycB, cycA] := by
  refine ⟨?_, ?_, ?_⟩
  · simp [getEvolutionPath, chain25, chain25Last, evoWalk, findById, jget,
      jtruthyO, jtruthy]
  · simp [getNodeDepth, chain25, chain25Last, depthWalk, findById, jget,
      jtruthyO, jtruthy]
  · simp [getEvolutionPath, cycA, cycB, evoWalk, findById, jget,
      jtruthyO, jtruthy]

/-! ## Claim C1: budget gate ordering -/

/-- **C1**: whenever cumulative spend has reached the configured
limit, the Worker's batch cycle never calls `popBatch` and every
Frontier entry that was pending before the admission check is still
pending afterward — the budget check strictly precedes the pop. -/
theorem claim_c1_budget_gate (l : BudgetLedger) (f : Frontier)
    (batchSize : ℕ) (h : l.limit ≤ l.spend) :
    (workerCycle l f batchSize).popCalled = false
    ∧ (workerCycle l f batchSize).frontier = f
    ∧ ∀ e ∈ f.pending, e ∈ (workerCycle l f batchSize).frontier.pending := by
  have hc : checkAdmission l = .exhausted := by
    rw [checkAdmission, if_pos h]
  rw [workerCycle, hc]
  exact ⟨rfl, rfl, fun e he => he⟩

/-- Witness for C1: an exhausted ledger (spend 5 against limit 3) with
one pending entry; the cycle pops nothing and the entry stays. -/
theorem claim_c1_budget_gate_witness :
    (workerCycle ⟨5, 3⟩ ⟨[⟨"x", 1, 0⟩], []⟩ 4).popCalled = false
    ∧ (workerCycle ⟨5, 3⟩ ⟨[⟨"x", 1, 0⟩], []⟩ 4).frontier = ⟨[⟨"x", 1, 0⟩], []⟩
    ∧ ∀ e ∈ (⟨[⟨"x", 1, 0⟩], []⟩ : Frontier).pending,
        e ∈ (workerCycle ⟨5, 3⟩ ⟨[⟨"x", 1, 0⟩], []⟩ 4).frontier.pending :=
  claim_c1_budget_gate ⟨5, 3⟩ ⟨[⟨"x", 1, 0⟩], []⟩ 4 (by decide)

/-! ## Claim C6: the priority formula -/

/-- **C6**: `computePriority` implements
`score + λ_trend·(score − parentScore) − λ_sim·topKSimilarity −
λ_depth·depth`; at score 0.8, parentScore 0.6, similarity 0.3, depth 2
with weights λ_trend 0.3, λ_sim 0.2, λ_depth 0.05 it returns exactly
0.70. -/
theorem claim_c6_priority_formula :
    computePriority ⟨3/10, 2/10, 5/100⟩ (8/10) (6/10) (3/10) 2 = 7/10
    ∧ ∀ (w : PriorityWeights) (s ps sim : ℚ) (d : ℕ),
        computePriority w s ps sim d
          = s + w.lambdaTrend * (s - ps) - w.lambdaSim * sim
            - w.lambdaDepth * d := by
  constructor
  · rw [computePriority]
    norm_num
  · intro w s ps sim d
    rfl

/-! ## Claim C5: the tree invariant of the Node Store -/

/-- A single create operation preserves the tree invariant: seeds are
parentless roots at depth 0, children point at a pre-existing parent
one level up, and failed creates commit nothing. -/
theorem applyStoreOp_inv (store : List SNode) (op : StoreOp)
    (h : storeInv store) : storeInv (applyStoreOp store op) := by
  cases op with
  | seed i =>
    rw [applyStoreOp]
    split
    · exact h
    · intro n hn
      rcases List.mem_cons.mp hn with rfl | hn'
      · exact ⟨fun p hp => absurd hp (by simp), by simp⟩
      · obtain ⟨h1, h2⟩ := h n hn'
        refine ⟨fun p hp => ?_, h2⟩
        obtain ⟨m, hm, hid, hd⟩ := h1 p hp
        exact ⟨m, List.mem_cons_of_mem _ hm, hid, hd⟩
  | child i p =>
    rw [applyStoreOp]
    split
    · exact h
    · split
      · exact h
      · next par heq =>
        intro n hn
        rcases List.mem_cons.mp hn with rfl | hn'
        · refine ⟨fun p' hp' => ?_, by simp⟩
          obtain rfl : p = p' := by
            simpa using hp'
          refine ⟨par, List.mem_cons_of_mem _ (List.mem_of_find?_eq_some heq),
            ?_, rfl⟩
          have := List.find?_some heq
          simpa using this
        · obtain ⟨h1, h2⟩ := h n hn'
          refine ⟨fun p' hp' => ?_, h2⟩
          obtain ⟨m, hm, hid, hd⟩ := h1 p' hp'
          exact ⟨m, List.mem_cons_of_mem _ hm, hid, hd⟩

/-- **C5**: in every store reachable by seed and child creation, each
node with a parent reference has an existing parent whose depth is one
less, and a node has depth 0 exactly when it has no parent reference. -/
theorem claim_c5_tree_invariant (ops : List StoreOp) (n : SNode)
    (hn : n ∈ runStore ops) :
    (∀ p, n.parentId = some p →
      ∃ m ∈ runStore ops, m.id = p ∧ n.depth = m.depth + 1)
    ∧ (n.depth = 0 ↔ n.parentId = none) := by
  have hrun : storeInv (runStore ops) := by
    rw [runStore]
    have hstep : ∀ (l : List StoreOp) (store : List SNode), storeInv store →
        storeInv (l.foldl applyStoreOp store) := by
      intro l
      induction l with
      | nil => intro store h; exact h
      | cons op ops ih =>
        intro store h
        exact ih _ (applyStoreOp_inv store op h)
    exact hstep ops [] (fun n hn => by cases hn)
  exact hrun n hn

/-- Witness for C5: the store grown by seeding root `"r"` and creating
child `"a"`; the invariant holds at the child. -/
theorem claim_c5_tree_invariant_witness :
    (∀ p, (⟨"a", some "r", 1⟩ : SNode).parentId = some p →
      ∃ m ∈ runStore [.seed "r", .child "a" "r"], m.id = p
        ∧ (⟨"a", some "r", 1⟩ : SNode).depth = m.depth + 1)
    ∧ ((⟨"a", some "r", 1⟩ : SNode).depth = 0
        ↔ (⟨"a", some "r", 1⟩ : SNode).parentId = none) :=
  claim_c5_tree_invariant [.seed "r", .child "a" "r"] ⟨"a", some "r", 1⟩
    (by decide)

/-! ## Claim C7: the moderation short-circuit -/

/-- **C7**: when moderation returns `Blocked` for a candidate, no
persona (`reply`) call and no critic (`criticize`) call is issued for
it, no cost is attributed, and no child is created; sibling candidates
in the same batch are processed exactly as they would be on their own. -/
theorem claim_c7_moderation_short_circuit (caps : Caps) (ctx cand : String)
    (h : caps.moderate cand = .blocked) :
    processCandidate caps ctx cand = ⟨0, 0, 0, none⟩
    ∧ ∀ pre post : List String,
        processCandidates caps ctx (pre ++ cand :: post)
          = processCandidates caps ctx pre
            ++ ⟨0, 0, 0, none⟩ :: processCandidates caps ctx post := by
  have hb : processCandidate caps ctx cand = ⟨0, 0, 0, none⟩ := by
    rw [processCandidate, h]
  refine ⟨hb, fun pre post => ?_⟩
  simp [processCandidates, hb]

/-- Witness for C7: with `capsDemo`, the blocked candidate `"bad"`
yields the empty outcome and leaves its siblings' outcomes untouched. -/
theorem claim_c7_moderation_short_circuit_witness :
    processCandidate capsDemo "ctx" "bad" = ⟨0, 0, 0, none⟩
    ∧ processCandidates capsDemo "ctx" (["ok"] ++ "bad" :: ["fine"])
        = processCandidates capsDemo "ctx" ["ok"]
          ++ ⟨0, 0, 0, none⟩ :: processCandidates capsDemo "ctx" ["fine"] := by
  have h := claim_c7_moderation_short_circuit capsDemo "ctx" "bad" (by decide)
  exact ⟨h.1, h.2 ["ok"] ["fine"]⟩

/-! ## Claim C8: the graph snapshot record shape -/

/-- **C8 counterexample**: the claim says every record returned by the
graph query carries `id`, `position`, `score`, `parentId` *as the names
and shapes the consumer reads*.  The spec-shaped record for `gChild`
does carry `parentId`, yet the consumer — the visualizer, which reads
`parent` and `xy` — sees no parent at all: its depth computation over
the query result returns 0 for the child. -/
theorem claim_c8_counterexample :
    jget (graphRecord gChild) "parentId" = some (.str "r")
    ∧ jget (graphRecord gChild) "parent" = none
    ∧ jget (graphRecord gChild) "xy" = none
    ∧ getNodeDepth (graphQuery [gRoot, gChild]) (graphRecord gChild) = 0 := by
  refine ⟨by decide, by decide, by decide, ?_⟩
  rw [getNodeDepth, depthWalk, if_neg]
  decide

/-- **C8 amended**: every record returned by the graph snapshot query
carries the fields `id`, `position`, `score` and `parentId` for every
node of the store — but these are not the names the consumer reads: the
visualizer reads `xy` and `parent`, which are absent from such
records. -/
theorem claim_c8_graph_record_fields (store : List GNode) (o : Obj)
    (ho : o ∈ graphQuery store) :
    (jget o "id").isSome ∧ (jget o "position").isSome
    ∧ (jget o "score").isSome ∧ (jget o "parentId").isSome
    ∧ jget o "parent" = none ∧ jget o "xy" = none := by
  obtain ⟨n, hn, rfl⟩ := List.mem_map.mp ho
  refine ⟨rfl, ?_, ?_, ?_, ?_, ?_⟩ <;>
    cases hs : n.score <;> cases hp : n.parentId <;>
      simp [graphRecord, jget, hs, hp]

/-- Witness for the amended C8 at the two-node store. -/
theorem claim_c8_graph_record_fields_witness :
    (jget (graphRecord gChild) "id").isSome
    ∧ (jget (graphRecord gChild) "position").isSome
    ∧ (jget (graphRecord gChild) "score").isSome
    ∧ (jget (graphRecord gChild) "parentId").isSome
    ∧ jget (graphRecord gChild) "parent" = none
    ∧ jget (graphRecord gChild) "xy" = none :=
  claim_c8_graph_record_fields [gRoot, gChild] (graphRecord gChild)
    (by simp [graphQuery])

/-! ## Claim C2: at-most-one expansion across all popBatch calls -/

/-- `push` never touches the popped set. -/
theorem push_popped (f : Frontier) (nid : String) (pri : ℚ) (t : ℕ) :
    (f.push nid pri t).popped = f.popped := by
  rw [Frontier.push]
  split <;> rfl

/-- `boost` never touches the popped set. -/
theorem boost_popped (f : Frontier) (nids : List String) (d : ℚ) :
    (f.boost nids d).popped = f.popped := rfl

/-- `boost` changes priorities only; the pending node ids are
untouched. -/
theorem boost_pending_ids (f : Frontier) (nids : List String) (d : ℚ) :
    (f.boost nids d).pending.map FrontierEntry.nodeId
      = f.pending.map FrontierEntry.nodeId := by
  rw [Frontier.boost]
  simp only [List.map_map]
  apply List.map_congr_left
  intro e he
  by_cases hm : e.nodeId ∈ nids <;> simp [hm]

/-- `push` preserves Frontier well-formedness: it inserts only node ids
that are neither pending nor already popped. -/
theorem push_WF (f : Frontier) (nid : String) (pri : ℚ) (t : ℕ)
    (h : f.WF) : (f.push nid pri t).WF := by
  rw [Frontier.push]
  split
  · exact h
  · next hc =>
    push_neg at hc
    rw [Frontier.WF] at h ⊢
    simp only [List.map_cons, List.cons_append, List.nodup_cons,
      List.mem_append]
    exact ⟨by rintro (hl | hr); exacts [hc.1 hl, hc.2 hr], h⟩

/-- `boost` preserves Frontier well-formedness. -/
theorem boost_WF (f : Frontier) (nids : List String) (d : ℚ)
    (h : f.WF) : (f.boost nids d).WF := by
  rw [Frontier.WF, boost_pending_ids, boost_popped]
  exact h

/-- The batch returned by one `popBatch` call has pairwise-distinct
node ids, is disjoint from everything already popped, leaves the
Frontier well-formed, and is appended to the popped record. -/
theorem popBatch_facts (f : Frontier) (k : ℕ) (h : f.WF) :
    (((f.popBatch k).1.map FrontierEntry.nodeId).Nodup
    ∧ ∀ x ∈ (f.popBatch k).1.map FrontierEntry.nodeId, x ∉ f.popped)
    ∧ (f.popBatch k).2.WF
    ∧ (f.popBatch k).2.popped
        = f.popped ++ (f.popBatch k).1.map FrontierEntry.nodeId := by
  have hperm : List.Perm (List.insertionSort entryLE f.pending) f.pending :=
    List.perm_insertionSort entryLE f.pending
  have hnd : ((List.insertionSort entryLE f.pending).map FrontierEntry.nodeId
      ++ f.popped).Nodup :=
    (((hperm.map FrontierEntry.nodeId).append_right f.popped).nodup_iff).mpr h
  have hsplit : (List.insertionSort entryLE f.pending).map FrontierEntry.nodeId
      = ((List.insertionSort entryLE f.pending).take k).map FrontierEntry.nodeId
        ++ ((List.insertionSort entryLE f.pending).drop k).map FrontierEntry.nodeId := by
    rw [← List.map_append, List.take_append_drop]
  have hdisj : ((List.insertionSort entryLE f.pending).map
      FrontierEntry.nodeId).Disjoint f.popped :=
    (List.nodup_append.mp hnd).2.2
  refine ⟨⟨?_, ?_⟩, ?_, rfl⟩
  · have hs : ((List.insertionSort entryLE f.pending).map
        FrontierEntry.nodeId).Nodup := hnd.of_append_left
    rw [hsplit] at hs
    exact hs.of_append_left
  · intro x hx
    apply hdisj
    rw [hsplit]
    exact List.mem_append_left _ hx
  · rw [Frontier.WF]
    have hp : List.Perm
        (((List.insertionSort entryLE f.pending).drop k).map
            FrontierEntry.nodeId
          ++ (f.popped ++ ((List.insertionSort entryLE f.pending).take k).map
            FrontierEntry.nodeId))
        ((List.insertionSort entryLE f.pending).map FrontierEntry.nodeId
          ++ f.popped) := by
      rw [hsplit]
      refine List.Perm.trans List.perm_append_comm ?_
      rw [List.append_assoc]
      exact List.perm_append_comm
    exact hp.nodup_iff.mpr hnd

/-- Across a whole run of atomic Frontier operations from a well-formed
state: the node ids of all returned batches are pairwise distinct, none
of them was popped before the run started, and the final state is
well-formed. -/
theorem runFOps_out (ops : List FOp) : ∀ f : Frontier, f.WF →
    ((runFOps f ops).2.map FrontierEntry.nodeId).Nodup
    ∧ (∀ x ∈ (runFOps f ops).2.map FrontierEntry.nodeId, x ∉ f.popped)
    ∧ (runFOps f ops).1.WF := by
  induction ops with
  | nil =>
    intro f h
    exact ⟨List.nodup_nil, by simp [runFOps], h⟩
  | cons op ops ih =>
    intro f h
    cases op with
    | push nid pri t =>
      obtain ⟨o1, o2, o3⟩ := ih (f.push nid pri t) (push_WF f nid pri t h)
      rw [push_popped] at o2
      refine ⟨by simpa [runFOps, applyFOp] using o1, ?_,
        by simpa [runFOps, applyFOp] using o3⟩
      intro x hx
      simp only [runFOps, applyFOp, List.nil_append] at hx
      exact o2 x hx
    | boost nids d =>
      obtain ⟨o1, o2, o3⟩ := ih (f.boost nids d) (boost_WF f nids d h)
      rw [boost_popped] at o2
      refine ⟨by simpa [runFOps, applyFOp] using o1, ?_,
        by simpa [runFOps, applyFOp] using o3⟩
      intro x hx
      simp only [runFOps, applyFOp, List.nil_append] at hx
      exact o2 x hx
    | pop k =>
      obtain ⟨⟨p1, p2⟩, pWF, peq⟩ := popBatch_facts f k h
      obtain ⟨o1, o2, o3⟩ := ih (f.popBatch k).2 pWF
      rw [peq] at o2
      have hd : ((f.popBatch k).1.map FrontierEntry.nodeId).Disjoint
          ((runFOps (f.popBatch k).2 ops).2.map FrontierEntry.nodeId) := by
        intro x hx hx'
        exact o2 x hx' (List.mem_append_right _ hx)
      refine ⟨?_, ?_, ?_⟩
      · simpa [runFOps, applyFOp, List.map_append] using p1.append o1 hd
      · intro x hx
        simp only [runFOps, applyFOp, List.map_append, List.mem_append] at hx
        rcases hx with hx | hx
        · exact p2 x hx
        · intro hp
          exact o2 x hx (List.mem_append_left _ hp)
      · simpa [runFOps, applyFOp] using o3

/-- **C2**: over any whole run — any interleaving of atomic `push`,
`popBatch` and `boost` calls from any number of concurrent callers,
starting from the empty Frontier — no node id is ever returned by two
`popBatch` calls: the ids of all returned entries are pairwise
distinct. -/
theorem claim_c2_at_most_one_expansion (ops : List FOp) :
    ((runFOps emptyFrontier ops).2.map FrontierEntry.nodeId).Nodup :=
  (runFOps_out ops emptyFrontier (by simp [Frontier.WF, emptyFrontier])).1

/-! ## Claim C10: node events are idempotent and non-destructive

Association-list lemmas about `jget`, the spread merge and the
index-based update used by `handleNodeUpdate`. -/

/-- Key lookup distributes over object concatenation. -/
theorem jget_append (l₁ l₂ : Obj) (k : String) :
    jget (l₁ ++ l₂) k = (jget l₁ k).or (jget l₂ k) := by
  induction l₁ with
  | nil => rfl
  | cons kv rest ih =>
    obtain ⟨k₀, v₀⟩ := kv
    rw [List.cons_append, jget, jget]
    split
    · rfl
    · exact ih

/-- Lookup in the override part of the spread merge: each key of `e`
keeps its position, with the value replaced when `u` has the key. -/
theorem jget_mapOverride (e u : Obj) (k : String) :
    jget (e.map fun kv =>
      match jget u kv.1 with
      | some v => (kv.1, v)
      | none => kv) k
    = (jget e k).map fun v => (jget u k).getD v := by
  induction e with
  | nil => rfl
  | cons kv rest ih =>
    obtain ⟨k₀, v₀⟩ := kv
    by_cases hk : k₀ = k
    · subst hk
      cases h₀ : jget u k₀ <;> simp [jget, h₀]
    · cases h₀ : jget u k₀ <;> simp [jget, hk, h₀, ih]

/-- Lookup in the appended part of the spread merge: the keys of `u`
that `e` lacks. -/
theorem jget_filterAbsent (e u : Obj) (k : String) :
    jget (u.filter fun kv => (jget e kv.1).isNone) k
    = if (jget e k).isNone then jget u k else none := by
  induction u with
  | nil => simp [jget]
  | cons kv rest ih =>
    obtain ⟨k₁, v₁⟩ := kv
    by_cases hk : k₁ = k
    · subst hk
      cases he : (jget e k₁).isNone <;>
        simp [List.filter_cons, he, jget, ih]
    · cases he : (jget e k₁).isNone <;>
        simp [List.filter_cons, he, jget, hk, ih]

/-- Lookup in a spread merge `{ ...e, ...u }`: the update's value wins,
the existing value survives where the update lacks the key. -/
theorem jget_spreadMerge (e u : Obj) (k : String) :
    jget (spreadMerge e u) k = (jget u k).or (jget e k) := by
  rw [spreadMerge, jget_append, jget_mapOverride, jget_filterAbsent]
  cases he : jget e k <;> cases hu : jget u k <;> simp

/-- An object has some value at each key it holds an entry for. -/
theorem mem_jget_isSome (u : Obj) (k : String) (v : JVal)
    (h : (k, v) ∈ u) : (jget u k).isSome := by
  induction u with
  | nil => cases h
  | cons kv rest ih =>
    obtain ⟨k₁, v₁⟩ := kv
    rcases List.mem_cons.mp h with heq | hm
    · cases heq
      simp [jget]
    · by_cases hk : k₁ = k
      · simp [jget, hk]
      · rw [jget, if_neg hk]
        exact ih hm

/-- With unique keys, lookup returns exactly the entry's value. -/
theorem jget_of_nodup_mem (u : Obj) (hu : (u.map Prod.fst).Nodup)
    (k : String) (v : JVal) (h : (k, v) ∈ u) : jget u k = some v := by
  induction u with
  | nil => cases h
  | cons kv rest ih =>
    obtain ⟨k₁, v₁⟩ := kv
    simp only [List.map_cons, List.nodup_cons] at hu
    rcases List.mem_cons.mp h with heq | hm
    · cases heq
      simp [jget]
    · have hk : k₁ ≠ k := by
        rintro rfl
        exact hu.1 (List.mem_map.mpr ⟨(k₁, v), hm, rfl⟩)
      rw [jget, if_neg hk]
      exact ih hu.2 hm

/-- Merging into an empty object yields the update itself. -/
theorem spreadMerge_nil (u : Obj) : spreadMerge [] u = u := by
  rw [spreadMerge]
  simp [jget]

/-- Re-applying the same update to an already-merged object changes
nothing (keys of a parsed JSON update are unique). -/
theorem spreadMerge_absorb (e u : Obj) (hu : (u.map Prod.fst).Nodup) :
    spreadMerge (spreadMerge e u) u = spreadMerge e u := by
  have hP : ∀ kv ∈ spreadMerge e u, ∀ w, jget u kv.1 = some w → kv.2 = w := by
    intro kv hkv w hw
    rw [spreadMerge] at hkv
    rcases List.mem_append.mp hkv with hm | hf
    · obtain ⟨kv₀, hkv₀, heq⟩ := List.mem_map.mp hm
      cases h₀ : jget u kv₀.1 with
      | none =>
        rw [h₀] at heq
        subst heq
        rw [hw] at h₀
        cases h₀
      | some v =>
        rw [h₀] at heq
        subst heq
        rw [hw] at h₀
        cases h₀
        rfl
    · have hmem : kv ∈ u := (List.mem_filter.mp hf).1
      have := jget_of_nodup_mem u hu kv.1 kv.2 hmem
      rw [hw] at this
      cases this
      rfl
  have hmap : ((spreadMerge e u).map fun kv =>
      match jget u kv.1 with
      | some v => (kv.1, v)
      | none => kv) = spreadMerge e u := by
    have hid : ∀ kv ∈ spreadMerge e u,
        (match jget u kv.1 with
          | some v => (kv.1, v)
          | none => kv) = kv := by
      intro kv hkv
      cases h₀ : jget u kv.1 with
      | none => rfl
      | some v =>
        have := hP kv hkv v h₀
        subst this
        rfl
    rw [List.map_congr_left hid, List.map_id']
  have hfil : (u.filter fun kv => (jget (spreadMerge e u) kv.1).isNone)
      = [] := by
    rw [List.filter_eq_nil_iff]
    intro kv hkv
    rw [jget_spreadMerge]
    have hs : (jget u kv.1).isSome := mem_jget_isSome u kv.1 kv.2 hkv
    cases h' : jget u kv.1 with
    | none => rw [h'] at hs; cases hs
    | some v => simp [h']
  calc spreadMerge (spreadMerge e u) u
      = ((spreadMerge e u).map fun kv =>
          match jget u kv.1 with
          | some v => (kv.1, v)
          | none => kv)
        ++ u.filter fun kv => (jget (spreadMerge e u) kv.1).isNone := rfl
    _ = spreadMerge e u := by rw [hmap, hfil, List.append_nil]

/-- A `findIndex` miss means no element matches. -/
theorem findIdxById_none_forall (nodes : List Obj) (v : Option JVal)
    (h : findIdxById nodes v = none) : ∀ n ∈ nodes, jget n "id" ≠ v := by
  induction nodes with
  | nil => intro n hn; cases hn
  | cons m rest ih =>
    rw [findIdxById] at h
    by_cases hm : jget m "id" = v
    · rw [if_pos hm] at h
      cases h
    · rw [if_neg hm] at h
      intro n hn
      rcases List.mem_cons.mp hn with rfl | hn'
      · exact hm
      · exact ih (Option.map_eq_none'.mp h) n hn'

/-- Appending a fresh node is found at the old length. -/
theorem findIdxById_append_new (nodes : List Obj) (u : Obj)
    (h : findIdxById nodes (jget u "id") = none) :
    findIdxById (nodes ++ [u]) (jget u "id") = some nodes.length := by
  induction nodes with
  | nil =>
    rw [List.nil_append, findIdxById, if_pos rfl]
    rfl
  | cons m rest ih =>
    rw [findIdxById] at h
    by_cases hm : jget m "id" = jget u "id"
    · rw [if_pos hm] at h
      cases h
    · rw [if_neg hm] at h
      rw [List.cons_append, findIdxById, if_neg hm,
        ih (Option.map_eq_none'.mp h)]
      rfl

/-- A `findIndex` hit is in range. -/
theorem findIdxById_lt (nodes : List Obj) (v : Option JVal) (i : ℕ)
    (h : findIdxById nodes v = some i) : i < nodes.length := by
  induction nodes generalizing i with
  | nil => cases h
  | cons m rest ih =>
    rw [findIdxById] at h
    by_cases hm : jget m "id" = v
    · rw [if_pos hm] at h
      cases h
      simp
    · rw [if_neg hm] at h
      obtain ⟨j, hj, hji⟩ := Option.map_eq_some'.mp h
      subst hji
      have := ih j hj
      simp only [List.length_cons]
      omega

/-- The element at a `findIndex` hit has the matched id. -/
theorem findIdxById_getAt (nodes : List Obj) (v : Option JVal) (i : ℕ)
    (h : findIdxById nodes v = some i) : jget (getAt nodes i) "id" = v := by
  induction nodes generalizing i with
  | nil => cases h
  | cons m rest ih =>
    rw [findIdxById] at h
    by_cases hm : jget m "id" = v
    · rw [if_pos hm] at h
      cases h
      exact hm
    · rw [if_neg hm] at h
      obtain ⟨j, hj, hji⟩ := Option.map_eq_some'.mp h
      subst hji
      exact ih j hj

/-- Replacing the found element with one of the same id keeps the
`findIndex` result. -/
theorem findIdxById_setAt (nodes : List Obj) (v : Option JVal) (i : ℕ)
    (m : Obj) (h : findIdxById nodes v = some i) (hm : jget m "id" = v) :
    findIdxById (setAt nodes i m) v = some i := by
  induction nodes generalizing i with
  | nil => cases h
  | cons n rest ih =>
    rw [findIdxById] at h
    by_cases hn : jget n "id" = v
    · rw [if_pos hn] at h
      cases h
      rw [setAt, findIdxById, if_pos hm]
    · rw [if_neg hn] at h
      obtain ⟨j, hj, hji⟩ := Option.map_eq_some'.mp h
      subst hji
      rw [setAt, findIdxById, if_neg hn, ih j hj]
      rfl

/-- Reading back an in-range assignment. -/
theorem getAt_setAt_self (l : List Obj) (i : ℕ) (y : Obj)
    (h : i < l.length) : getAt (setAt l i y) i = y := by
  induction l generalizing i with
  | nil => exact absurd h (Nat.not_lt_zero i)
  | cons x rest ih =>
    cases i with
    | zero => rfl
    | succ j => exact ih j (by simpa using h)

/-- Overwriting the same position twice keeps only the last write. -/
theorem setAt_setAt (l : List Obj) (i : ℕ) (a b : Obj) :
    setAt (setAt l i a) i b = setAt l i b := by
  induction l generalizing i with
  | nil => rfl
  | cons x rest ih =>
    cases i with
    | zero => rfl
    | succ j =>
      rw [setAt, setAt, setAt, ih]

/-- Positions other than the assigned one are unchanged. -/
theorem getAt_setAt_ne (l : List Obj) (i j : ℕ) (y : Obj) (h : j ≠ i) :
    getAt (setAt l i y) j = getAt l j := by
  induction l generalizing i j with
  | nil => rfl
  | cons x rest ih =>
    cases i with
    | zero =>
      cases j with
      | zero => exact absurd rfl h
      | succ j' => rfl
    | succ i' =>
      cases j with
      | zero => rfl
      | succ j' => exact ih i' j' (by omega)

/-- Assignment preserves the length. -/
theorem length_setAt (l : List Obj) (i : ℕ) (y : Obj) :
    (setAt l i y).length = l.length := by
  induction l generalizing i with
  | nil => rfl
  | cons x rest ih =>
    cases i with
    | zero => rfl
    | succ j => rw [setAt, List.length_cons, List.length_cons, ih]

/-- Reading an index of the left part of a concatenation. -/
theorem getAt_append_left (l l₂ : List Obj) (j : ℕ) (h : j < l.length) :
    getAt (l ++ l₂) j = getAt l j := by
  induction l generalizing j with
  | nil => exact absurd h (Nat.not_lt_zero j)
  | cons x rest ih =>
    cases j with
    | zero => rfl
    | succ j' => exact ih j' (by simpa using h)

/-- Reading the appended element. -/
theorem getAt_append_length (l : List Obj) (u : Obj) :
    getAt (l ++ [u]) l.length = u := by
  induction l with
  | nil => rfl
  | cons x rest ih => exact ih

/-- Assigning at the appended position replaces the appended element. -/
theorem setAt_append_length (l : List Obj) (u y : Obj) :
    setAt (l ++ [u]) l.length y = l ++ [y] := by
  induction l with
  | nil => rfl
  | cons x rest ih =>
    show setAt (x :: (rest ++ [u])) (rest.length + 1) y = x :: (rest ++ [y])
    rw [setAt, ih]

/-- `handleNodeUpdate` when the event's id is already present: merge in
place. -/
theorem handleNodeUpdate_found (nodes : List Obj) (u : Obj) (i : ℕ)
    (h : findIdxById nodes (jget u "id") = some i) :
    handleNodeUpdate nodes u = setAt nodes i (spreadMerge (getAt nodes i) u) := by
  rw [handleNodeUpdate, h]

/-- `handleNodeUpdate` when the event's id is new: append. -/
theorem handleNodeUpdate_new (nodes : List Obj) (u : Obj)
    (h : findIdxById nodes (jget u "id") = none) :
    handleNodeUpdate nodes u = nodes ++ [u] := by
  rw [handleNodeUpdate, h]

/-- The merged node keeps the id the update was matched by. -/
theorem jget_spreadMerge_id (nodes : List Obj) (u : Obj) (i : ℕ)
    (h : findIdxById nodes (jget u "id") = some i) :
    jget (spreadMerge (getAt nodes i) u) "id" = jget u "id" := by
  rw [jget_spreadMerge]
  cases hu : jget u "id" with
  | some x => rfl
  | none =>
    have hg := findIdxById_getAt nodes _ i h
    rw [hu] at hg
    rw [hg]
    rfl

/-- **C10**: processing node events is duplicate-tolerant and
non-destructive — applying the same node-created/updated event twice
leaves the node list exactly as applying it once; no event application
shrinks the node list; and no field present on a stored node is erased
by an event that lacks that field (the hypothesis states the event's
keys are unique, as they are for any parsed JSON object). -/
theorem claim_c10_events_idempotent (nodes : List Obj) (u : Obj)
    (hu : (u.map Prod.fst).Nodup) :
    handleNodeUpdate (handleNodeUpdate nodes u) u = handleNodeUpdate nodes u
    ∧ nodes.length ≤ (handleNodeUpdate nodes u).length
    ∧ ∀ j k, j < nodes.length → (jget (getAt nodes j) k).isSome
        → (jget (getAt (handleNodeUpdate nodes u) j) k).isSome := by
  cases hidx : findIdxById nodes (jget u "id") with
  | none =>
    have h1 : handleNodeUpdate nodes u = nodes ++ [u] :=
      handleNodeUpdate_new nodes u hidx
    have hself : spreadMerge u u = u := by
      have := spreadMerge_absorb [] u hu
      rwa [spreadMerge_nil] at this
    refine ⟨?_, ?_, ?_⟩
    · rw [h1, handleNodeUpdate_found (nodes ++ [u]) u nodes.length
          (findIdxById_append_new nodes u hidx),
        getAt_append_length, hself, setAt_append_length]
    · rw [h1]
      simp
    · intro j k hj hk
      rw [h1, getAt_append_left nodes [u] j hj]
      exact hk
  | some i =>
    have hlt : i < nodes.length := findIdxById_lt nodes _ i hidx
    have h1 : handleNodeUpdate nodes u
        = setAt nodes i (spreadMerge (getAt nodes i) u) :=
      handleNodeUpdate_found nodes u i hidx
    have hid : jget (spreadMerge (getAt nodes i) u) "id" = jget u "id" :=
      jget_spreadMerge_id nodes u i hidx
    refine ⟨?_, ?_, ?_⟩
    · rw [h1, handleNodeUpdate_found _ u i
          (findIdxById_setAt nodes _ i _ hidx hid),
        getAt_setAt_self nodes i _ hlt, spreadMerge_absorb _ u hu,
        setAt_setAt]
    · rw [h1, length_setAt]
    · intro j k hj hk
      rw [h1]
      by_cases hji : j = i
      · subst hji
        rw [getAt_setAt_self _ _ _ hlt, jget_spreadMerge]
        cases h' : jget u k
        · simpa using hk
        · simp
      · rw [getAt_setAt_ne _ _ _ _ hji]
        exact hk

/-- Witness for C10: the score/reply event `wUpd` applied to the
single-node list `[vRoot]`, twice and once; the root's `prompt` field
survives the merge. -/
theorem claim_c10_events_idempotent_witness :
    handleNodeUpdate (handleNodeUpdate [vRoot] wUpd) wUpd
      = handleNodeUpdate [vRoot] wUpd
    ∧ [vRoot].length ≤ (handleNodeUpdate [vRoot] wUpd).length
    ∧ (jget (getAt (handleNodeUpdate [vRoot] wUpd) 0) "prompt").isSome :=
  ⟨(claim_c10_events_idempotent [vRoot] wUpd (by decide)).1,
   (claim_c10_events_idempotent [vRoot] wUpd (by decide)).2.1,
   (claim_c10_events_idempotent [vRoot] wUpd (by decide)).2.2 0 "prompt"
     (by decide) (by decide)⟩

end Multiverse
